import Mathlib

/-!
Verification model of the Ephemeral Preview Session Manager in
`server/main.py`, `server/preview_manager.py` and `server/preview_server.py`.

Conventions of the shallow embedding:
* Absolute filesystem paths are lists of components (`List String`), already in
  resolved form (no `.` / `..` components); the resolver's `Path.resolve()` is
  the explicit `resolveUnder` below, which collapses `..` lexically (there are
  no symlinks in the model).
* The filesystem is an explicit finite structure `FS` of files (path, text
  content) and extra directories (so that empty directories such as a bare
  `dist/` are representable).  `Path.exists()` is `pathExists`, `is_file()` is
  `isFile`, `is_dir()` is `isDir`, `read_text()` is `readFile` (total on files
  present in the model, so `read_text` exception branches are unreachable).
* Wall-clock time is a `Nat` passed explicitly (`time.time()` at the moments a
  single operation reads it is modelled as one value).
* The registry's single non-reentrant `threading.Lock` is modelled explicitly:
  operations take a `RegistryState` whose `locked` flag records whether the
  lock is held, and return `Option` — `none` means the execution blocks forever
  (acquiring the lock while it is already held by the same thread).
-/

/-- Filesystem: a finite set of text files plus explicitly present directories
(`dirs` lists directories that exist even when no file lies beneath them). -/
structure FS where
  files : List (List String × String)
  dirs : List (List String)
  deriving Repr, DecidableEq

/-- `Path.is_file()`: the path is one of the files. -/
def isFile (fs : FS) (p : List String) : Bool :=
  fs.files.any (fun e => e.1 == p)

/-- `Path.is_dir()`: the path is an explicitly created directory, an ancestor of
one, or a strict ancestor of some file. -/
def isDir (fs : FS) (p : List String) : Bool :=
  fs.dirs.any (fun d => p.isPrefixOf d) ||
    fs.files.any (fun e => p.isPrefixOf e.1 && !(p == e.1))

/-- `Path.exists()`. -/
def pathExists (fs : FS) (p : List String) : Bool :=
  isFile fs p || isDir fs p

/-- `Path.read_text()`, total on files present in the model. -/
def readFile (fs : FS) (p : List String) : Option String :=
  (fs.files.find? (fun e => e.1 == p)).map (fun e => e.2)

/-- Python `str.lstrip("/")`: drop every leading slash. -/
def lstripSlashes (s : String) : String :=
  List.asString (s.toList.dropWhile (fun c => c == '/'))

/-- Split a character list on `/` (the semantics of `str.split("/")`). -/
def splitSlash : List Char → List (List Char)
  | [] => [[]]
  | c :: rest =>
    if c == '/' then [] :: splitSlash rest
    else
      match splitSlash rest with
      | [] => [[c]]
      | h :: t => (c :: h) :: t

/-- Components of a relative path as `pathlib` parses it: split on `/`,
dropping empty components and single dots, keeping `..`. -/
def relComponents (s : String) : List String :=
  ((splitSlash s.toList).map List.asString).filter
    (fun c => !(c == "") && !(c == "."))

/-- `Path.resolve()` applied to `base / comps`: each `..` pops one component
(staying at the root when already there), other components are appended.
`base` is assumed already resolved; there are no symlinks in the model. -/
def resolveUnder (base : List String) (comps : List String) : List String :=
  comps.foldl (fun acc c => if c == ".." then acc.dropLast else acc ++ [c]) base

/-- `Path.suffix` of a file name: the part from the last dot on, empty when the
only dot is leading or trailing or there is none (CPython's
`0 < name.rfind('.') < len(name) - 1` rule), lower-cased as in
`get_mime_type`. -/
def pathSuffix (name : String) : String :=
  let cs := name.toList
  let tail := cs.reverse.takeWhile (fun c => !(c == '.'))
  if tail.length == cs.length then ""
  else if tail.length == 0 then ""
  else if tail.length + 1 == cs.length then ""
  else ("." ++ (tail.reverse.map Char.toLower).asString)

/-- MIME table of `get_mime_type` in `server/main.py`. -/
def get_mime_type (p : List String) : String :=
  let ext := pathSuffix (p.getLast? |>.getD "")
  let table : List (String × String) :=
    [(".html", "text/html"), (".htm", "text/html"), (".css", "text/css"),
     (".js", "application/javascript"), (".mjs", "application/javascript"),
     (".json", "application/json"), (".png", "image/png"),
     (".jpg", "image/jpeg"), (".jpeg", "image/jpeg"), (".gif", "image/gif"),
     (".svg", "image/svg+xml"), (".ico", "image/x-icon"),
     (".woff", "font/woff"), (".woff2", "font/woff2"), (".ttf", "font/ttf"),
     (".eot", "application/vnd.ms-fontobject"), (".xml", "application/xml"),
     (".txt", "text/plain")]
  ((table.find? (fun e => e.1 == ext)).map (fun e => e.2)).getD
    "application/octet-stream"

/-- `find_index_file` in `serve_preview`: first of `index.html`, `index.htm`
found (as a file) in the given directories, scanned in order. -/
def find_index_file (fs : FS) (dirs : List (List String)) :
    Option (List String) :=
  dirs.findSome? (fun d =>
    ["index.html", "index.htm"].findSome? (fun n =>
      if isFile fs (d ++ [n]) then some (d ++ [n]) else none))

/-- `find_static_dir` in `serve_preview`: first of `dist`, `build`, `out` that
is a directory with an entry page; else `public` with an entry page; else the
session root if it has an entry page; else `dist` if it is a directory; else
the session root. -/
def find_static_dir (fs : FS) (preview_dir : List String) : List String :=
  match ["dist", "build", "out"].find? (fun d =>
      isDir fs (preview_dir ++ [d]) &&
        (find_index_file fs [preview_dir ++ [d]]).isSome) with
  | some d => preview_dir ++ [d]
  | none =>
    if isDir fs (preview_dir ++ ["public"]) &&
        (find_index_file fs [preview_dir ++ ["public"]]).isSome then
      preview_dir ++ ["public"]
    else if (find_index_file fs [preview_dir]).isSome then preview_dir
    else if isDir fs (preview_dir ++ ["dist"]) then preview_dir ++ ["dist"]
    else preview_dir

/- ### HTML reference rewrite (`re.sub` with the two patterns in
`serve_preview`), modelled as an executable matcher over `List Char` with
Python's leftmost-match, greedy-with-backtracking semantics for the patterns
`(<link[^>]+href=["'])([^"']+)(["'][^>]*>)` and
`(<script[^>]+src=["'])([^"']+)(["'][^>]*>)`. -/

/-- The single-quote character (codepoint 39). -/
def squote : Char := Char.ofNat 39

/-- Is the character one of the two quote characters of the pattern. -/
def isQuote (c : Char) : Bool := c == '"' || c == squote

/-- Match the pattern tail `["']([^"']+)(["'][^>]*>)` at the head of `s`.
Returns the opening quote, group 2 (the value), the closing quote, the
`[^>]*` run and the rest of the input after `>`. -/
def matchAfterAttr (s : List Char) :
    Option (Char × List Char × Char × List Char × List Char) :=
  match s with
  | [] => none
  | q1 :: rest =>
    if isQuote q1 then
      let v := rest.takeWhile (fun c => !(isQuote c))
      let rest2 := rest.drop v.length
      if v.isEmpty then none
      else
        match rest2 with
        | q2 :: rest3 =>
          let w := rest3.takeWhile (fun c => !(c == '>'))
          let rest4 := rest3.drop w.length
          match rest4 with
          | gt :: rest5 => if gt == '>' then some (q1, v, q2, w, rest5) else none
          | [] => none
        | [] => none
    else none

/-- One backtracking step of `[^>]+` before `attr`: does splitting `body` after
`j` characters produce a full match of `[^>]{j}attr["']([^"']+)(["'][^>]*>)`. -/
def stepCheck (attr body : List Char) (j : Nat) :
    Option (Char × List Char × Char × List Char × List Char) :=
  if (body.take j).all (fun c => !(c == '>')) && attr.isPrefixOf (body.drop j)
  then matchAfterAttr ((body.drop j).drop attr.length)
  else none

/-- Greedy backtracking of `[^>]+`: try the longest split first, down to one
character, exactly as the regex engine does. -/
def trySplit (attr body : List Char) :
    Nat → Option (Nat × Char × List Char × Char × List Char × List Char)
  | 0 => none
  | k + 1 =>
    match stepCheck attr body (k + 1) with
    | some (q1, v, q2, w, r) => some (k + 1, q1, v, q2, w, r)
    | none => trySplit attr body k

/-- Fuelled `re.sub` scan: leftmost match wins, the replacement is emitted and
scanning resumes after the match.  `repl` receives groups 1, 2 and 3. -/
def rsubF (tag attr : List Char)
    (repl : List Char → List Char → List Char → List Char) :
    Nat → List Char → List Char
  | 0, s => s
  | _ + 1, [] => []
  | fuel + 1, c :: rest =>
    if tag.isPrefixOf (c :: rest) then
      let body := (c :: rest).drop tag.length
      match trySplit attr body body.length with
      | some (k, q1, v, q2, w, rest5) =>
        repl (tag ++ body.take k ++ attr ++ [q1]) v ([q2] ++ w ++ ['>']) ++
          rsubF tag attr repl fuel rest5
      | none => c :: rsubF tag attr repl fuel rest
    else c :: rsubF tag attr repl fuel rest

/-- `re.sub(pattern, repl, s)` for the two patterns above (one scan step always
consumes at least one character, so `s.length` fuel completes the scan). -/
def rsub (tag attr : List Char)
    (repl : List Char → List Char → List Char → List Char)
    (s : List Char) : List Char :=
  rsubF tag attr repl s.length s

/-- `str.lstrip("/")` on a character list. -/
def lstripSlashL (v : List Char) : List Char :=
  v.dropWhile (fun c => c == '/')

/-- Does the value start with one of the given literal strings
(`str.startswith` on a tuple)? -/
def startsWithAny (ps : List (List Char)) (v : List Char) : Bool :=
  ps.any (fun p => p.isPrefixOf v)

/-- The value after the rewrite decision of `rewrite_link` / `rewrite_script`:
values starting with `http`, `//` or `/preview/` are kept, anything else is
prefixed with `/preview/<token>/` after stripping leading slashes. -/
def rewrittenValue (token v : List Char) : List Char :=
  if startsWithAny
      [String.toList "http", String.toList "//", String.toList "/preview/"] v
  then v
  else String.toList "/preview/" ++ token ++ ['/'] ++ lstripSlashL v

/-- The replacement callbacks `rewrite_link` / `rewrite_script`: keep the whole
match (group 0) for already-absolute values, otherwise splice the prefixed
value between groups 1 and 3. -/
def rewriteRepl (token : List Char) (g1 v g3 : List Char) : List Char :=
  g1 ++ rewrittenValue token v ++ g3

/-- Both `re.sub` passes of `serve_preview`, in source order: first the
`<link ... href=` pass, then the `<script ... src=` pass. -/
def rewriteHtmlL (token html : List Char) : List Char :=
  rsub (String.toList "<script") (String.toList "src=") (rewriteRepl token)
    (rsub (String.toList "<link") (String.toList "href=") (rewriteRepl token)
      html)

/-- String-level wrapper of the HTML reference rewrite. -/
def rewrite_html (token html : String) : String :=
  List.asString (rewriteHtmlL token.toList html.toList)

/- ### The proxy resolver (`serve_preview` in `server/main.py`). -/

/-- Result of one `serve_preview` request.  `html` is an `HTMLResponse` whose
content was read from `src` and rewritten; `htmlGen` is the synthesized
fallback entry page (also rewritten); `file` is a raw `FileResponse` of the
given path with the given MIME type; `notFound` is any 404; `accessDenied` is
the 403 of the traversal guard. -/
inductive ServeResult where
  | html (src : List String) (content : String)
  | htmlGen (content : String)
  | file (path : List String) (mime : String)
  | notFound
  | accessDenied
  deriving Repr, DecidableEq

/-- `main.py` line 288: scan `src/` for the first existing main entry file. -/
def findMainEntry (fs : FS) (preview_dir : List String) : Option String :=
  if pathExists fs (preview_dir ++ ["src"]) then
    ["main.tsx", "main.jsx", "main.ts", "main.js", "index.tsx",
     "index.jsx"].find? (fun e => pathExists fs (preview_dir ++ ["src", e]))
  else none

/-- Does the manifest declare React?  The source parses `package.json` as JSON
and scans the dependency keys for the substring `react`; the JSON parse is
abstracted as a substring scan of the raw manifest text (a parse failure in the
source is swallowed, leaving the flag false, matching `readFile = none` here).
The flag only selects the default entry name of the synthesized fallback page
and no claim below depends on it. -/
def is_react_project (fs : FS) (preview_dir : List String) : Bool :=
  match readFile fs (preview_dir ++ ["package.json"]) with
  | some c =>
    decide (∃ n, n < c.toList.length ∧
      (String.toList "react").isPrefixOf ((c.toList.map Char.toLower).drop n))
  | none => false

/-- The synthesized fallback entry page of `serve_preview` (both template
strings of the source are identical except for the default entry name). -/
def fallback_index (main_entry : Option String) (isReact : Bool) : String :=
  let entry := main_entry.getD (if isReact then "main.jsx" else "main.js")
  "<!DOCTYPE html>\n<html lang=\"en\">\n<head>\n    <meta charset=\"UTF-8\">\n    <meta name=\"viewport\" content=\"width=device-width, initial-scale=1.0\">\n    <title>App</title>\n</head>\n<body>\n    <div id=\"root\"></div>\n    <script type=\"module\" src=\"/src/" ++
    entry ++ "\"></script>\n</body>\n</html>"

/-- The empty-`file_path` branch of `serve_preview`: search the serving root,
the session root and the conventional subdirectories for an entry page, serve
it rewritten; otherwise synthesize a fallback page for web projects (writing it
into the serving root) or fail.  Returns the response and the possibly updated
filesystem. -/
def serve_entry (fs : FS) (token : String) (preview_dir static : List String) :
    ServeResult × FS :=
  let sub_locs := (["dist", "build", "out", "public"].filter
    (fun d => pathExists fs (preview_dir ++ [d]))).map
      (fun d => preview_dir ++ [d])
  match find_index_file fs ([static, preview_dir] ++ sub_locs) with
  | some ip =>
    match readFile fs ip with
    | some content => (.html ip (rewrite_html token content), fs)
    | none => (.file ip (get_mime_type ip), fs)
  | none =>
    if pathExists fs (preview_dir ++ ["package.json"]) ||
        pathExists fs (preview_dir ++ ["src"]) then
      let content := fallback_index (findMainEntry fs preview_dir)
        (is_react_project fs preview_dir)
      (.htmlGen (rewrite_html token content),
        { fs with files := fs.files ++ [(static ++ ["index.html"], content)] })
    else (.notFound, fs)

/-- The non-empty-`file_path` branch of `serve_preview`: resolve under the
serving root behind the traversal guard, serve the file or a directory index,
else fall back to the session root behind its own guard. -/
def serve_subpath (fs : FS) (preview_dir static : List String)
    (file_path : String) : ServeResult :=
  let rel := relComponents (lstripSlashes file_path)
  let requested := resolveUnder static rel
  if !(static.isPrefixOf requested) then .accessDenied
  else if isFile fs requested then .file requested (get_mime_type requested)
  else if isDir fs requested then
    match find_index_file fs [requested] with
    | some ip => .file ip "text/html"
    | none => .notFound
  else
    let rootReq := resolveUnder preview_dir rel
    if pathExists fs rootReq && !(static == preview_dir) then
      if preview_dir.isPrefixOf rootReq then
        if isFile fs rootReq then .file rootReq (get_mime_type rootReq)
        else .notFound
      else .notFound
    else .notFound

/-- `serve_preview` after the registry lookup: pick the serving root, then
dispatch on whether a sub-path was requested. -/
def serve_preview_files (fs : FS) (token : String) (preview_dir : List String)
    (file_path : String) : ServeResult × FS :=
  let static := find_static_dir fs preview_dir
  if file_path == "" || file_path == "/" then
    serve_entry fs token preview_dir static
  else (serve_subpath fs preview_dir static file_path, fs)

example :
    serve_subpath ⟨[(["tmp", "previews", "t", "index.html"], "x")], []⟩
      ["tmp", "previews", "t"] ["tmp", "previews", "t"] "../../etc/passwd" =
      ServeResult.accessDenied := by decide

example :
    serve_subpath ⟨[(["tmp", "previews", "t", "index.html"], "x")], []⟩
      ["tmp", "previews", "t"] ["tmp", "previews", "t"] "/etc/passwd" =
      ServeResult.notFound := by decide

example :
    rewrite_html "T" "<link href=\"styles/main.css\">" =
      "<link href=\"/preview/T/styles/main.css\">" := by decide

example :
    rewrite_html "T" "<script src=\"https://cdn.example.com/x.js\"></script>" =
      "<script src=\"https://cdn.example.com/x.js\"></script>" := by decide

/- ### Session registry (`PreviewManager` in `server/preview_manager.py`). -/

/-- One registry entry: `token -> {path, port, expires_at, created_at}` (the
external process handle is outside the model; terminating it is an external
effect of teardown). -/
structure Preview where
  path : List String
  port : Nat
  expiresAt : Nat
  createdAt : Nat
  deriving Repr, DecidableEq

/-- The manager's shared state: the token map plus the single non-reentrant
`threading.Lock` (`locked = true` while it is held). -/
structure RegistryState where
  previews : List (String × Preview)
  locked : Bool
  deriving Repr, DecidableEq

/-- `self.previews.get(token)`. -/
def lookupPreview (m : List (String × Preview)) (token : String) :
    Option Preview :=
  (m.find? (fun e => e.1 == token)).map (fun e => e.2)

/-- `PreviewManager._remove_preview`: read the entry without the lock, tear
down process and directory (external effects), then acquire the lock to pop the
map entry.  Acquiring the already-held non-reentrant lock blocks forever
(`none`).  When the token is absent the function returns early without ever
touching the lock. -/
def removePreview (token : String) (s : RegistryState) :
    Option RegistryState :=
  match lookupPreview s.previews token with
  | none => some s
  | some _ =>
    if s.locked then none
    else some { previews := s.previews.filter (fun e => !(e.1 == token)),
                locked := false }

/-- `PreviewManager.get_preview`: under the lock, return a live entry; an
expired entry triggers `_remove_preview` while the lock is still held (the lazy
expiry path).  Result: `none` when the execution never returns, otherwise the
returned value and the state after release. -/
def get_preview (token : String) (now : Nat) (s : RegistryState) :
    Option (Option Preview × RegistryState) :=
  if s.locked then none
  else
    let s1 : RegistryState := { s with locked := true }
    match lookupPreview s1.previews token with
    | some p =>
      if now < p.expiresAt then some (some p, { s1 with locked := false })
      else
        match removePreview token s1 with
        | none => none
        | some s2 => some (none, { s2 with locked := false })
    | none => some (none, { s1 with locked := false })

/-- `PreviewManager.register_preview`: under the lock, bind the token.  The
expiry time is `now + PREVIEW_DURATION_MINUTES * 60`. -/
def register_preview (token : String) (path : List String) (port : Nat)
    (now : Nat) (s : RegistryState) : Option RegistryState :=
  if s.locked then none
  else
    let entry : String × Preview := (token, ⟨path, port, now + 10 * 60, now⟩)
    some ⟨entry :: s.previews.filter (fun e => !(e.1 == token)), false⟩

/-- `PreviewManager.cleanup_expired` (the Reaper's sweep): snapshot the expired
tokens under the lock, release it, then remove each one. -/
def cleanup_expired (now : Nat) (s : RegistryState) : Option RegistryState :=
  if s.locked then none
  else
    let expired := (s.previews.filter
      (fun e => e.2.expiresAt ≤ now)).map (fun e => e.1)
    expired.foldlM (fun st t => removePreview t st) s

/-- `PreviewManager.stop_preview`: look the token up (lazily expiring it) and
remove it when live. -/
def stop_preview (token : String) (now : Nat) (s : RegistryState) :
    Option (Bool × RegistryState) :=
  match get_preview token now s with
  | none => none
  | some (some _, s1) =>
    match removePreview token s1 with
    | none => none
    | some s2 => some (true, s2)
  | some (none, s1) => some (false, s1)

/-- The full `serve_preview` endpoint: registry lookup first (404 when the
token is unknown or expired — the latter never actually returns, see
`get_preview`), then the file-serving body. -/
def serve_preview (reg : RegistryState) (fs : FS) (now : Nat)
    (token file_path : String) :
    Option ((ServeResult × FS) × RegistryState) :=
  match get_preview token now reg with
  | none => none
  | some (none, reg2) => some ((.notFound, fs), reg2)
  | some (some p, reg2) =>
    some (serve_preview_files fs token p.path file_path, reg2)

/- ### Provisioning (`server/preview_server.py`). -/

/-- Outcome of one external `subprocess.run` invocation. -/
inductive ProcOutcome where
  | exit (code : Int)
  | timedOut
  | raised
  deriving Repr, DecidableEq

/-- `install_dependencies`: trivially succeeds without a manifest; otherwise
succeeds exactly when `npm install` exits 0; a timeout or exception yields
`false` (logged by the caller, never raised). -/
def install_dependencies (hasPackageJson : Bool) (npm : ProcOutcome) : Bool :=
  if hasPackageJson then
    match npm with
    | .exit c => c == 0
    | .timedOut => false
    | .raised => false
  else true

/-- `build_project` (return value only; the entry-page copy into `dist` on
success is a filesystem effect no claim below consumes): trivially succeeds
without a manifest or build script; otherwise succeeds exactly when the build
command exits 0, with timeouts and exceptions yielding `false`. -/
def build_project (hasPackageJson hasBuildScript : Bool)
    (build : ProcOutcome) : Bool :=
  if hasPackageJson then
    if hasBuildScript then
      match build with
      | .exit c => c == 0
      | .timedOut => false
      | .raised => false
    else true
  else true

/-- `find_static_files` in `server/preview_server.py`: first existing directory
among `dist`, `build`, `out`, `public` (no entry-page requirement), else the
session root. -/
def find_static_files (fs : FS) (preview_dir : List String) : List String :=
  match ["dist", "build", "out", "public"].find?
      (fun d => isDir fs (preview_dir ++ [d])) with
  | some d => preview_dir ++ [d]
  | none => preview_dir

/-- CPython's `ZipFile._extract_member` member-name sanitization (POSIX): the
name is split on the separator and components that are empty, `.` or `..` are
dropped, so the joined target never leaves the extraction directory; no error
is ever raised for absolute or escaping names. -/
def zipSanitize (name : String) : List String :=
  ((splitSlash name.toList).map List.asString).filter
    (fun c => !(c == "") && !(c == ".") && !(c == ".."))

/-- Extraction of one zip member: members whose name ends in `/` only create a
directory, others (over)write the file at the sanitized path under the
target. -/
def extractStep (target : List String) (acc : FS) (e : String × String) : FS :=
  let p := target ++ zipSanitize e.1
  if e.1.toList.getLast? == some '/' then
    { acc with dirs := acc.dirs ++ [p] }
  else
    { acc with files := acc.files.filter (fun f => !(f.1 == p)) ++ [(p, e.2)] }

/-- `extract_zip_to_directory`: create the target directory, then
`ZipFile.extractall`, which writes every member at its sanitized name under the
target. -/
def extract_zip_to_directory (entries : List (String × String))
    (target : List String) (fs : FS) : FS :=
  entries.foldl (extractStep target) { fs with dirs := fs.dirs ++ [target] }

/-- `PreviewInfo` as returned by `create_preview`. -/
structure PreviewInfo where
  preview_url : String
  preview_token : String
  expires_at : Nat
  port : Nat
  deriving Repr, DecidableEq

/-- `create_preview`: extract, best-effort install (failure only logged),
best-effort build (failure only logged), then allocate a port, start the
server and register the session.  `portFound = none` models
`find_available_port` exhausting its window and `startOk = false` models
`start_preview_server` returning `None`; both abort via the `except` branch,
returning `None` after the directory cleanup (external effect).  The returned
registry state is `none` only on a lock deadlock (impossible from an unlocked
state). -/
def create_preview (hasPackageJson hasBuildScript : Bool)
    (npm build : ProcOutcome) (portFound : Option Nat) (startOk : Bool)
    (base_url token : String) (target : List String) (now : Nat)
    (s : RegistryState) : Option (Option PreviewInfo × RegistryState) :=
  let _installed := install_dependencies hasPackageJson npm
  let _built := build_project hasPackageJson hasBuildScript build
  match portFound with
  | none => some (none, s)
  | some port =>
    if startOk then
      match register_preview token target port now s with
      | none => none
      | some s2 =>
        some (some ⟨base_url ++ "/preview/" ++ token, token,
          now + 10 * 60, port⟩, s2)
    else some (none, s)

example :
    get_preview "t" 700
      ⟨[("t", ⟨["tmp", "previews", "t"], 3000, 600, 0⟩)], false⟩ = none := by
  decide

example :
    stop_preview "t" 100
      ⟨[("t", ⟨["tmp", "previews", "t"], 3000, 600, 0⟩)], false⟩ =
      some (true, ⟨[], false⟩) := by decide

/- ### Helper lemmas. -/

/-- Looking a token up after filtering out its bindings finds nothing. -/
theorem lookupPreview_filter_self (m : List (String × Preview))
    (token : String) :
    lookupPreview (m.filter (fun e => !(e.1 == token))) token = none := by
  have h : (m.filter (fun e => !(e.1 == token))).find?
      (fun e => e.1 == token) = none := by
    rw [List.find?_eq_none]
    intro x hx
    have hx2 := (List.mem_filter.mp hx).2
    simp only [Bool.not_eq_eq_eq_not, Bool.not_true] at hx2
    simp [hx2]
  simp [lookupPreview, h]

/- ### Claim theorems. -/

/-- Claim C10 (confirmed): when `lookup` finds an entry whose expiry time has
passed, it invokes `_remove_preview` while still holding the registry's single
non-reentrant mutex, and that routine re-acquires the same mutex; the
lazy-expiry lookup therefore never terminates (`get_preview` has no returning
execution, modelled as `none`). -/
theorem C10_lazy_expiry_lookup_diverges (s : RegistryState) (token : String)
    (now : Nat) (p : Preview) (hlock : s.locked = false)
    (hfind : lookupPreview s.previews token = some p)
    (hexp : p.expiresAt ≤ now) :
    get_preview token now s = none := by
  have hnge : ¬ now < p.expiresAt := Nat.not_lt.mpr hexp
  unfold get_preview removePreview
  simp [hlock, hfind, hnge]

theorem C10_lazy_expiry_lookup_diverges_witness :
    (⟨[("t", ⟨["tmp", "previews", "t"], 3000, 600, 0⟩)],
        false⟩ : RegistryState).locked = false ∧
    lookupPreview [("t", ⟨["tmp", "previews", "t"], 3000, 600, 0⟩)] "t" =
      some ⟨["tmp", "previews", "t"], 3000, 600, 0⟩ ∧
    get_preview "t" 700
      ⟨[("t", ⟨["tmp", "previews", "t"], 3000, 600, 0⟩)], false⟩ = none :=
  ⟨by decide, by decide,
    C10_lazy_expiry_lookup_diverges _ "t" 700
      ⟨["tmp", "previews", "t"], 3000, 600, 0⟩ rfl (by decide) (by decide)⟩

/-- Claim C2 (code_bug): the spec requires `lookup` of an expired token to
remove the entry and return not-found; the code instead re-acquires its own
non-reentrant lock inside `_remove_preview` and never returns.  Evaluation at
the failing input: a registry holding token `t` expired at time 600, looked up
at time 700 from an unlocked state, yields no terminating execution. -/
theorem C2_expired_lookup_never_returns :
    get_preview "t" 700
      ⟨[("t", ⟨["tmp", "previews", "t"], 3000, 600, 0⟩)], false⟩ = none := by
  decide

/-- Claim C6 (confirmed): for a token naming a live session, `stop_preview`
returns `true` and removes the entry, and a second `stop_preview` on the
removed token returns `false` without error at any later time. -/
theorem C6_stop_preview_idempotent (s : RegistryState) (token : String)
    (now now2 : Nat) (p : Preview) (hlock : s.locked = false)
    (hfind : lookupPreview s.previews token = some p)
    (hlive : now < p.expiresAt) :
    ∃ s1, stop_preview token now s = some (true, s1) ∧
      lookupPreview s1.previews token = none ∧
      stop_preview token now2 s1 = some (false, s1) := by
  refine ⟨⟨s.previews.filter (fun e => !(e.1 == token)), false⟩, ?_, ?_, ?_⟩
  · unfold stop_preview get_preview removePreview
    simp [hlock, hfind, hlive]
  · exact lookupPreview_filter_self s.previews token
  · unfold stop_preview get_preview
    simp [lookupPreview_filter_self s.previews token]

theorem C6_stop_preview_idempotent_witness :
    (⟨[("t", ⟨["tmp", "previews", "t"], 3000, 600, 0⟩)],
        false⟩ : RegistryState).locked = false ∧
    (100 : Nat) < 600 ∧
    ∃ s1, stop_preview "t" 100
        ⟨[("t", ⟨["tmp", "previews", "t"], 3000, 600, 0⟩)], false⟩ =
        some (true, s1) ∧
      lookupPreview s1.previews "t" = none ∧
      stop_preview "t" 9999 s1 = some (false, s1) :=
  ⟨by decide, by decide,
    C6_stop_preview_idempotent _ "t" 100 9999
      ⟨["tmp", "previews", "t"], 3000, 600, 0⟩ rfl (by decide) (by decide)⟩

/-- Claim C8 (confirmed): provisioning degrades rather than fails — for every
outcome of the dependency install and of the build (including failures and
timeouts), once a port is found and the server starts, `create_preview`
returns a `PreviewInfo` and registers the session. -/
theorem C8_provisioning_degrades (hasPackageJson hasBuildScript : Bool)
    (npm build : ProcOutcome) (port : Nat) (base_url token : String)
    (target : List String) (now : Nat) (s : RegistryState)
    (hlock : s.locked = false) :
    ∃ s2, create_preview hasPackageJson hasBuildScript npm build (some port)
        true base_url token target now s =
        some (some ⟨base_url ++ "/preview/" ++ token, token,
          now + 10 * 60, port⟩, s2) ∧
      lookupPreview s2.previews token =
        some ⟨target, port, now + 10 * 60, now⟩ := by
  refine ⟨⟨(token, ⟨target, port, now + 10 * 60, now⟩) ::
    s.previews.filter (fun e => !(e.1 == token)), false⟩, ?_, ?_⟩
  · unfold create_preview register_preview
    simp [hlock]
  · simp [lookupPreview, List.find?]

theorem C8_provisioning_degrades_witness :
    install_dependencies true ProcOutcome.timedOut = false ∧
    build_project true true ProcOutcome.timedOut = false ∧
    ∃ s2, create_preview true true ProcOutcome.timedOut ProcOutcome.timedOut
        (some 3000) true "http://localhost" "t" ["tmp", "previews", "t"] 0
        ⟨[], false⟩ =
        some (some ⟨"http://localhost" ++ "/preview/" ++ "t", "t",
          0 + 10 * 60, 3000⟩, s2) ∧
      lookupPreview s2.previews "t" =
        some ⟨["tmp", "previews", "t"], 3000, 0 + 10 * 60, 0⟩ :=
  ⟨by decide, by decide,
    C8_provisioning_degrades true true ProcOutcome.timedOut
      ProcOutcome.timedOut 3000 "http://localhost" "t"
      ["tmp", "previews", "t"] 0 ⟨[], false⟩ rfl⟩

/-- Every file present after folding extraction steps was either already
present or lies under the target directory. -/
theorem extract_foldl_files (target : List String) :
    ∀ (es : List (String × String)) (g : FS) (p : List String) (c : String),
      (p, c) ∈ (es.foldl (extractStep target) g).files →
      (p, c) ∈ g.files ∨ target <+: p := by
  intro es
  induction es with
  | nil => intro g p c h; exact Or.inl h
  | cons e rest ih =>
    intro g p c h
    rcases ih (extractStep target g e) p c h with h2 | h2
    · unfold extractStep at h2
      split at h2
      · exact Or.inl h2
      · rcases List.mem_append.mp h2 with h3 | h3
        · exact Or.inl (List.mem_filter.mp h3).1
        · have h4 := List.mem_singleton.mp h3
          have h5 : p = target ++ zipSanitize e.1 := congrArg Prod.fst h4
          exact Or.inr (h5 ▸ List.prefix_append target (zipSanitize e.1))
    · exact Or.inr h2

/-- Claim C7 (corrected, counterexample): an entry whose path escapes the
target (`../evil.txt`) does not make materialization fail — extraction
completes, silently writing the sanitized member `evil.txt` inside the target
directory. -/
theorem C7_escaping_entry_extracts_without_error :
    extract_zip_to_directory [("../evil.txt", "x")] ["tmp", "previews", "t"]
      ⟨[], []⟩ =
      ⟨[(["tmp", "previews", "t", "evil.txt"], "x")],
        [["tmp", "previews", "t"]]⟩ := by decide

/-- Claim C7 (corrected): materialization never fails on absolute, empty or
escaping entry paths; `extractall` sanitizes every member name (dropping
empty, `.` and `..` components and leading slashes), so every file it writes
lies inside the target directory. -/
theorem C7_extraction_stays_in_target (entries : List (String × String))
    (target : List String) (fs : FS) (p : List String) (c : String)
    (hm : (p, c) ∈ (extract_zip_to_directory entries target fs).files) :
    (p, c) ∈ fs.files ∨ target <+: p :=
  extract_foldl_files target entries { fs with dirs := fs.dirs ++ [target] }
    p c hm

theorem C7_extraction_stays_in_target_witness :
    ((["t2", "a.txt"], "y") ∈ (⟨[], []⟩ : FS).files) ∨
      ["t2"] <+: ["t2", "a.txt"] :=
  C7_extraction_stays_in_target [("a.txt", "y")] ["t2"] ⟨[], []⟩
    ["t2", "a.txt"] "y" (by decide)

/-- Claim C9 (corrected, counterexample): a session whose root holds an entry
page next to an empty `dist/` directory is rooted at `dist` by the Process
Supervisor's `find_static_files` but at the session root by the Proxy
Resolver's `find_static_dir` — the two directory-selection rules disagree. -/
theorem C9_directory_selection_disagrees :
    find_static_files
        ⟨[(["tmp", "previews", "t", "index.html"], "x")],
          [["tmp", "previews", "t", "dist"]]⟩ ["tmp", "previews", "t"] ≠
      find_static_dir
        ⟨[(["tmp", "previews", "t", "index.html"], "x")],
          [["tmp", "previews", "t", "dist"]]⟩ ["tmp", "previews", "t"] := by
  decide

/-- Claim C9 (corrected): the Process Supervisor's serving directory agrees
with the Proxy Resolver's whenever every existing candidate build directory
(`dist`, `build`, `out`, `public`) contains an entry page; in general
`find_static_files` ignores entry pages and may choose differently. -/
theorem C9_directory_selection_agrees (fs : FS) (pd : List String)
    (h : ∀ d ∈ (["dist", "build", "out", "public"] : List String),
      isDir fs (pd ++ [d]) = true →
        (find_index_file fs [pd ++ [d]]).isSome = true) :
    find_static_files fs pd = find_static_dir fs pd := by
  have hd := h "dist" (by simp)
  have hb := h "build" (by simp)
  have ho := h "out" (by simp)
  have hp := h "public" (by simp)
  unfold find_static_files find_static_dir
  by_cases h1 : isDir fs (pd ++ ["dist"]) = true
  · simp [List.find?, h1, hd h1]
  · simp only [Bool.not_eq_true] at h1
    by_cases h2 : isDir fs (pd ++ ["build"]) = true
    · simp [List.find?, h1, h2, hb h2]
    · simp only [Bool.not_eq_true] at h2
      by_cases h3 : isDir fs (pd ++ ["out"]) = true
      · simp [List.find?, h1, h2, h3, ho h3]
      · simp only [Bool.not_eq_true] at h3
        by_cases h4 : isDir fs (pd ++ ["public"]) = true
        · simp [List.find?, h1, h2, h3, h4, hp h4]
        · simp only [Bool.not_eq_true] at h4
          simp [List.find?, h1, h2, h3, h4]

theorem C9_directory_selection_agrees_witness :
    find_static_files ⟨[(["p", "dist", "index.html"], "x")], []⟩ ["p"] =
      find_static_dir ⟨[(["p", "dist", "index.html"], "x")], []⟩ ["p"] :=
  C9_directory_selection_agrees ⟨[(["p", "dist", "index.html"], "x")], []⟩
    ["p"] (by decide)

/-- A path with readable content is a file. -/
theorem isFile_of_readFile {fs : FS} {p : List String} {c : String}
    (h : readFile fs p = some c) : isFile fs p = true := by
  unfold readFile at h
  cases hf : fs.files.find? (fun e => e.1 == p) with
  | none => rw [hf] at h; cases h
  | some e =>
    have hp := List.find?_some hf
    have hm := List.mem_of_find?_eq_some hf
    unfold isFile
    rw [List.any_eq_true]
    exact ⟨e, hm, hp⟩

/-- The parent directory of a file exists as a directory. -/
theorem isDir_of_isFile_child {fs : FS} {q : List String} {x : String}
    (h : isFile fs (q ++ [x]) = true) : isDir fs q = true := by
  unfold isFile at h
  rw [List.any_eq_true] at h
  obtain ⟨e, hm, he⟩ := h
  have he2 : e.1 = q ++ [x] := by simpa using he
  unfold isDir
  rw [Bool.or_eq_true]
  refine Or.inr ?_
  rw [List.any_eq_true]
  refine ⟨e, hm, ?_⟩
  rw [he2]
  have h1 : q.isPrefixOf (q ++ [x]) = true :=
    List.isPrefixOf_iff_prefix.mpr (List.prefix_append q [x])
  have h2 : (q == q ++ [x]) = false := by
    rw [beq_eq_false_iff_ne]
    intro hc
    have hlen := congrArg List.length hc
    simp at hlen
  rw [h1, h2]
  rfl

/-- Serving-root selection written from the spec's words (§4.6 step 2): (a) a
conventional build-output directory (`dist`, `build`, `out` in that order)
containing an entry page; (b) a `public` directory containing an entry page;
(c) the session root itself if it contains an entry page; (d) the `dist`-style
directory if present even without an entry page, else the root.  Stated for
comparison with the source's `find_static_dir`. -/
def spec_serving_root (fs : FS) (pd : List String) : List String :=
  if isDir fs (pd ++ ["dist"]) &&
      (find_index_file fs [pd ++ ["dist"]]).isSome then pd ++ ["dist"]
  else if isDir fs (pd ++ ["build"]) &&
      (find_index_file fs [pd ++ ["build"]]).isSome then pd ++ ["build"]
  else if isDir fs (pd ++ ["out"]) &&
      (find_index_file fs [pd ++ ["out"]]).isSome then pd ++ ["out"]
  else if isDir fs (pd ++ ["public"]) &&
      (find_index_file fs [pd ++ ["public"]]).isSome then pd ++ ["public"]
  else if (find_index_file fs [pd]).isSome then pd
  else if isDir fs (pd ++ ["dist"]) then pd ++ ["dist"]
  else pd

/-- Claim C5 (confirmed): the serving root follows the spec's priority order
(first conjunct: `find_static_dir` equals the rule as the spec words it, on
every filesystem), and in particular a session whose root holds both
`index.html` and `dist/index.html` serves the `dist` variant for the empty
relative path (second conjunct). -/
theorem C5_serving_root_priority :
    (∀ (fs : FS) (pd : List String),
      find_static_dir fs pd = spec_serving_root fs pd) ∧
    (∀ (fs : FS) (token : String) (pd : List String) (c : String),
      isFile fs (pd ++ ["index.html"]) = true →
      readFile fs (pd ++ ["dist", "index.html"]) = some c →
      (serve_preview_files fs token pd "").1 =
        ServeResult.html (pd ++ ["dist", "index.html"])
          (rewrite_html token c)) := by
  constructor
  · intro fs pd
    unfold find_static_dir spec_serving_root
    by_cases p1 : (isDir fs (pd ++ ["dist"]) &&
        (find_index_file fs [pd ++ ["dist"]]).isSome) = true
    · simp [List.find?, p1]
    · simp only [Bool.not_eq_true] at p1
      by_cases p2 : (isDir fs (pd ++ ["build"]) &&
          (find_index_file fs [pd ++ ["build"]]).isSome) = true
      · simp [List.find?, p1, p2]
      · simp only [Bool.not_eq_true] at p2
        by_cases p3 : (isDir fs (pd ++ ["out"]) &&
            (find_index_file fs [pd ++ ["out"]]).isSome) = true
        · simp [List.find?, p1, p2, p3]
        · simp only [Bool.not_eq_true] at p3
          simp [List.find?, p1, p2, p3]
  · intro fs token pd c hroot hdistF
    have hdistFlat : isFile fs (pd ++ ["dist", "index.html"]) = true :=
      isFile_of_readFile hdistF
    have hdistD : isDir fs (pd ++ ["dist"]) = true := by
      apply isDir_of_isFile_child (x := "index.html")
      rw [List.append_assoc]
      exact hdistFlat
    have hfi : find_index_file fs [pd ++ ["dist"]] =
        some (pd ++ ["dist", "index.html"]) := by
      unfold find_index_file
      simp [List.findSome?, hdistFlat]
    have hsd : find_static_dir fs pd = pd ++ ["dist"] := by
      unfold find_static_dir
      simp [List.find?, hdistD, hfi]
    unfold serve_preview_files serve_entry
    rw [hsd]
    simp only [beq_self_eq_true, Bool.true_or, if_true]
    have hfi2 : find_index_file fs ([pd ++ ["dist"], pd] ++
        (["dist", "build", "out", "public"].filter
          (fun d => pathExists fs (pd ++ [d]))).map (fun d => pd ++ [d])) =
        some (pd ++ ["dist", "index.html"]) := by
      unfold find_index_file
      simp [List.findSome?, hdistFlat]
    rw [hfi2]
    simp [hdistF]

theorem C5_serving_root_priority_witness :
    (serve_preview_files
        ⟨[(["tmp", "previews", "t", "index.html"], "root variant"),
          (["tmp", "previews", "t", "dist", "index.html"], "dist variant")],
          []⟩ "T" ["tmp", "previews", "t"] "").1 =
      ServeResult.html (["tmp", "previews", "t"] ++ ["dist", "index.html"])
        (rewrite_html "T" "dist variant") :=
  C5_serving_root_priority.2
    ⟨[(["tmp", "previews", "t", "index.html"], "root variant"),
      (["tmp", "previews", "t", "dist", "index.html"], "dist variant")], []⟩
    "T" ["tmp", "previews", "t"] "dist variant" (by decide) (by decide)

/-- `find_static_dir` returns the session root or one of its four conventional
subdirectories. -/
theorem find_static_dir_shape (fs : FS) (pd : List String) :
    find_static_dir fs pd = pd ∨ find_static_dir fs pd = pd ++ ["dist"] ∨
    find_static_dir fs pd = pd ++ ["build"] ∨
    find_static_dir fs pd = pd ++ ["out"] ∨
    find_static_dir fs pd = pd ++ ["public"] := by
  unfold find_static_dir
  cases hf : ["dist", "build", "out"].find? (fun d =>
      isDir fs (pd ++ [d]) && (find_index_file fs [pd ++ [d]]).isSome) with
  | some d =>
    have hm := List.mem_of_find?_eq_some hf
    simp only [List.mem_cons, List.not_mem_nil, or_false] at hm
    rcases hm with h | h | h <;> subst h
    · exact Or.inr (Or.inl rfl)
    · exact Or.inr (Or.inr (Or.inl rfl))
    · exact Or.inr (Or.inr (Or.inr (Or.inl rfl)))
  | none =>
    by_cases hpub : (isDir fs (pd ++ ["public"]) &&
        (find_index_file fs [pd ++ ["public"]]).isSome) = true
    · refine Or.inr (Or.inr (Or.inr (Or.inr ?_)))
      simp [hpub]
    · simp only [Bool.not_eq_true] at hpub
      by_cases hridx : (find_index_file fs [pd]).isSome = true
      · left
        simp [hpub, hridx]
      · simp only [Bool.not_eq_true] at hridx
        by_cases hdd : isDir fs (pd ++ ["dist"]) = true
        · refine Or.inr (Or.inl ?_)
          simp [hpub, hridx, hdd]
        · simp only [Bool.not_eq_true] at hdd
          left
          simp [hpub, hridx, hdd]

/-- The serving root extends the session root. -/
theorem find_static_dir_extends (fs : FS) (pd : List String) :
    pd <+: find_static_dir fs pd := by
  rcases find_static_dir_shape fs pd with h | h | h | h | h <;> rw [h] <;>
    first
      | exact List.prefix_rfl
      | exact List.prefix_append _ _

/-- Any entry page found by `find_index_file` lies directly in one of the
searched directories. -/
theorem find_index_file_shape (fs : FS) :
    ∀ (dirs : List (List String)) (q : List String),
      find_index_file fs dirs = some q →
      ∃ d ∈ dirs, ∃ n ∈ (["index.html", "index.htm"] : List String),
        q = d ++ [n] := by
  intro dirs
  induction dirs with
  | nil => intro q h; cases h
  | cons d ds ih =>
    intro q h
    unfold find_index_file at h
    rw [List.findSome?_cons] at h
    by_cases h1 : isFile fs (d ++ ["index.html"]) = true
    · simp [List.findSome?, h1] at h
      exact ⟨d, by simp, "index.html", by simp, h.symm⟩
    · simp only [Bool.not_eq_true] at h1
      by_cases h2 : isFile fs (d ++ ["index.htm"]) = true
      · simp [List.findSome?, h1, h2] at h
        exact ⟨d, by simp, "index.htm", by simp, h.symm⟩
      · simp only [Bool.not_eq_true] at h2
        simp only [List.findSome?, h1, h2, if_false, Bool.false_eq_true] at h
        obtain ⟨d2, hd2, n, hn, hq⟩ := ih q h
        exact ⟨d2, by simp [hd2], n, hn, hq⟩

/-- The sub-path branch never emits a rewritten HTML response. -/
theorem serve_subpath_not_html (fs : FS) (pd static : List String)
    (fp : String) (p : List String) (c : String) :
    serve_subpath fs pd static fp ≠ ServeResult.html p c := by
  intro h
  simp only [serve_subpath] at h
  split at h
  · simp at h
  · split at h
    · simp at h
    · split at h
      · split at h <;> simp at h
      · split at h
        · split at h
          · split at h <;> simp at h
          · simp at h
        · simp at h

/-- The sub-path branch never emits a synthesized HTML response. -/
theorem serve_subpath_not_htmlGen (fs : FS) (pd static : List String)
    (fp : String) (c : String) :
    serve_subpath fs pd static fp ≠ ServeResult.htmlGen c := by
  intro h
  simp only [serve_subpath] at h
  split at h
  · simp at h
  · split at h
    · simp at h
    · split at h
      · split at h <;> simp at h
      · split at h
        · split at h
          · split at h <;> simp at h
          · simp at h
        · simp at h

/-- Every raw file the sub-path branch serves lies under the session root. -/
theorem serve_subpath_file_contained (fs : FS) (pd static : List String)
    (fp : String) (p : List String) (m : String) (hst : pd <+: static)
    (h : serve_subpath fs pd static fp = ServeResult.file p m) :
    pd <+: p := by
  simp only [serve_subpath] at h
  split at h
  · simp at h
  · rename_i hguard
    simp only [Bool.not_eq_true', Bool.not_eq_false] at hguard
    have hreq : static <+:
        resolveUnder static (relComponents (lstripSlashes fp)) :=
      List.isPrefixOf_iff_prefix.mp hguard
    split at h
    · simp only [ServeResult.file.injEq] at h
      obtain ⟨hp, -⟩ := h
      exact hp ▸ hst.trans hreq
    · split at h
      · split at h
        · rename_i ip hip
          simp only [ServeResult.file.injEq] at h
          obtain ⟨hp, -⟩ := h
          obtain ⟨d2, hd2, n, hn, hq⟩ :=
            find_index_file_shape fs _ ip hip
          simp only [List.mem_singleton] at hd2
          subst hd2
          subst hq
          subst hp
          exact (hst.trans hreq).trans (List.prefix_append _ _)
        · simp at h
      · split at h
        · split at h
          · rename_i hrg
            split at h
            · simp only [ServeResult.file.injEq] at h
              obtain ⟨hp, -⟩ := h
              exact hp ▸ List.isPrefixOf_iff_prefix.mp hrg
            · simp at h
          · simp at h
        · simp at h

/-- Every path the entry branch reads (for a rewritten page) or serves raw lies
under the session root. -/
theorem serve_entry_contained (fs : FS) (token : String)
    (pd static : List String) (hst : pd <+: static) :
    (∀ p c, (serve_entry fs token pd static).1 = ServeResult.html p c →
      pd <+: p) ∧
    (∀ p m, (serve_entry fs token pd static).1 = ServeResult.file p m →
      pd <+: p) := by
  cases hfi : find_index_file fs ([static, pd] ++
      (["dist", "build", "out", "public"].filter
        (fun d => pathExists fs (pd ++ [d]))).map (fun d => pd ++ [d])) with
  | some ip =>
    have hip : pd <+: ip := by
      obtain ⟨d, hd, n, hn, hq⟩ := find_index_file_shape fs _ ip hfi
      subst hq
      refine List.IsPrefix.trans ?_ (List.prefix_append d [n])
      rcases List.mem_append.mp hd with h2 | h2
      · simp only [List.mem_cons, List.not_mem_nil, or_false] at h2
        rcases h2 with h3 | h3 <;> subst h3
        · exact hst
        · exact List.prefix_rfl
      · obtain ⟨d2, hd2, hq2⟩ := List.mem_map.mp h2
        exact hq2 ▸ List.prefix_append _ _
    constructor
    · intro p c h
      simp only [serve_entry, hfi] at h
      cases hr : readFile fs ip with
      | some content =>
        simp only [hr] at h
        simp only [ServeResult.html.injEq] at h
        exact h.1 ▸ hip
      | none => simp only [hr] at h; simp at h
    · intro p m h
      simp only [serve_entry, hfi] at h
      cases hr : readFile fs ip with
      | some content => simp only [hr] at h; simp at h
      | none =>
        simp only [hr] at h
        simp only [ServeResult.file.injEq] at h
        exact h.1 ▸ hip
  | none =>
    constructor <;> intro p c h <;> simp only [serve_entry, hfi] at h <;>
      split at h <;> simp at h

/-- Claim C1 (corrected): for every valid token, resolving
`../../etc/passwd` escapes the serving root and is rejected with
`AccessDenied` before any read, while every file the resolver does serve —
and every page it reads for rewriting — lies under the session's root
directory `/tmp/previews/<token>` (an absolute `/etc/passwd` has its leading
slash stripped and is resolved inside the root, so it yields `NotFound`, not
`AccessDenied`, when no such file exists there). -/
theorem C1_traversal_guard (fs : FS) (token fp : String) :
    (serve_preview_files fs token ["tmp", "previews", token]
        "../../etc/passwd").1 = ServeResult.accessDenied ∧
    (∀ p m, (serve_preview_files fs token ["tmp", "previews", token] fp).1 =
      ServeResult.file p m → ["tmp", "previews", token] <+: p) ∧
    (∀ p c, (serve_preview_files fs token ["tmp", "previews", token] fp).1 =
      ServeResult.html p c → ["tmp", "previews", token] <+: p) := by
  refine ⟨?_, ?_, ?_⟩
  · unfold serve_preview_files
    simp only [show (("../../etc/passwd" == "") ||
      ("../../etc/passwd" == "/")) = false by decide, Bool.false_eq_true,
      if_false]
    have hrel : relComponents (lstripSlashes "../../etc/passwd") =
        ["..", "..", "etc", "passwd"] := by decide
    rcases find_static_dir_shape fs ["tmp", "previews", token] with
      h | h | h | h | h <;> rw [h] <;> simp only [serve_subpath, hrel] <;>
      simp [resolveUnder, List.dropLast, List.isPrefixOf]
  · intro p m h
    simp only [serve_preview_files] at h
    split at h
    · exact (serve_entry_contained fs token _ _
        (find_static_dir_extends fs _)).2 p m h
    · exact serve_subpath_file_contained fs _ _ fp p m
        (find_static_dir_extends fs _) h
  · intro p c h
    simp only [serve_preview_files] at h
    split at h
    · exact (serve_entry_contained fs token _ _
        (find_static_dir_extends fs _)).1 p c h
    · exact absurd h (serve_subpath_not_html fs _ _ fp p c)

/-- Claim C1 (corrected, counterexample): for a valid live token,
`serve(token, "/etc/passwd")` does not return `AccessDenied` — the leading
slash is stripped, `etc/passwd` resolves inside the serving root, and the
request yields `NotFound`. -/
theorem C1_absolute_path_not_denied :
    serve_preview ⟨[("t", ⟨["tmp", "previews", "t"], 3000, 600, 0⟩)], false⟩
        ⟨[(["tmp", "previews", "t", "index.html"], "x")], []⟩ 100 "t"
        "/etc/passwd" =
      some ((ServeResult.notFound,
        ⟨[(["tmp", "previews", "t", "index.html"], "x")], []⟩),
        ⟨[("t", ⟨["tmp", "previews", "t"], 3000, 600, 0⟩)], false⟩) ∧
    ServeResult.notFound ≠ ServeResult.accessDenied := by decide

theorem C1_traversal_guard_witness :
    (serve_preview_files ⟨[(["tmp", "previews", "t", "index.html"], "x")], []⟩
        "t" ["tmp", "previews", "t"] "index.html").1 =
      ServeResult.file ["tmp", "previews", "t", "index.html"] "text/html" ∧
    ["tmp", "previews", "t"] <+: ["tmp", "previews", "t", "index.html"] :=
  ⟨by decide,
    (C1_traversal_guard ⟨[(["tmp", "previews", "t", "index.html"], "x")], []⟩
      "t" "index.html").2.1 ["tmp", "previews", "t", "index.html"]
      "text/html" (by decide)⟩

/-- Claim C3 (corrected, counterexample): an HTML file reached through a
non-empty relative path is served as a raw `FileResponse` whose bytes are not
rewrite-invariant — the reference rewrite is not applied to it. -/
theorem C3_subpath_html_served_raw :
    (serve_preview_files
        ⟨[(["tmp", "previews", "t", "index.html"], "home"),
          (["tmp", "previews", "t", "about.html"], "<link href=\"a.css\">")],
          []⟩ "T" ["tmp", "previews", "t"] "about.html").1 =
      ServeResult.file ["tmp", "previews", "t", "about.html"] "text/html" ∧
    rewrite_html "T" "<link href=\"a.css\">" ≠ "<link href=\"a.css\">" := by
  decide

/-- Claim C3 (corrected): the reference rewrite is applied exactly to the
entry-page responses produced for an empty relative path (a found entry page
is served through `rewrite_html`, third conjunct); every response for a
non-empty relative path — including HTML files and directory indexes — is
emitted without rewriting (never a rewritten-HTML response, first two
conjuncts). -/
theorem C3_rewrite_only_entry_pages (fs : FS) (token : String)
    (pd : List String) (fp : String) (h1 : ¬ fp = "") (h2 : ¬ fp = "/") :
    (∀ p c, (serve_preview_files fs token pd fp).1 ≠ ServeResult.html p c) ∧
    (∀ c, (serve_preview_files fs token pd fp).1 ≠ ServeResult.htmlGen c) ∧
    (∀ ip content,
      find_index_file fs ([find_static_dir fs pd, pd] ++
        (["dist", "build", "out", "public"].filter
          (fun d => pathExists fs (pd ++ [d]))).map (fun d => pd ++ [d])) =
        some ip →
      readFile fs ip = some content →
      (serve_preview_files fs token pd "").1 =
        ServeResult.html ip (rewrite_html token content)) := by
  have hcond : ((fp == "") || (fp == "/")) = false := by
    rw [Bool.or_eq_false_iff]
    constructor <;> rw [beq_eq_false_iff_ne] <;> assumption
  refine ⟨?_, ?_, ?_⟩
  · intro p c
    unfold serve_preview_files
    rw [hcond]
    simp only [Bool.false_eq_true, if_false]
    exact serve_subpath_not_html fs pd _ fp p c
  · intro c
    unfold serve_preview_files
    rw [hcond]
    simp only [Bool.false_eq_true, if_false]
    exact serve_subpath_not_htmlGen fs pd _ fp c
  · intro ip content hfi hread
    simp only [List.cons_append, List.nil_append] at hfi
    simp only [serve_preview_files, serve_entry]
    simp only [beq_self_eq_true, Bool.true_or, if_true]
    simp [hfi, hread]

theorem C3_rewrite_only_entry_pages_witness :
    ((serve_preview_files ⟨[(["p", "index.html"], "hi")], []⟩ "T" ["p"]
        "q.html").1 ≠ ServeResult.html ["p"] "z") ∧
    ((serve_preview_files ⟨[(["p", "index.html"], "hi")], []⟩ "T" ["p"]
        "q.html").1 ≠ ServeResult.htmlGen "z") ∧
    ((serve_preview_files ⟨[(["p", "index.html"], "hi")], []⟩ "T" ["p"]
        "").1 = ServeResult.html (["p"] ++ ["index.html"])
        (rewrite_html "T" "hi")) :=
  ⟨(C3_rewrite_only_entry_pages ⟨[(["p", "index.html"], "hi")], []⟩ "T" ["p"]
      "q.html" (by decide) (by decide)).1 ["p"] "z",
    (C3_rewrite_only_entry_pages ⟨[(["p", "index.html"], "hi")], []⟩ "T"
      ["p"] "q.html" (by decide) (by decide)).2.1 "z",
    (C3_rewrite_only_entry_pages ⟨[(["p", "index.html"], "hi")], []⟩ "T"
      ["p"] "q.html" (by decide) (by decide)).2.2 (["p"] ++ ["index.html"])
      "hi" (by decide) (by decide)⟩

/-- `takeWhile` passes over a whole prefix all of whose elements satisfy the
predicate. -/
theorem takeWhile_append_of_all {α : Type} {p : α → Bool} (xs ys : List α)
    (h : ∀ c ∈ xs, p c = true) :
    (xs ++ ys).takeWhile p = xs ++ ys.takeWhile p := by
  induction xs with
  | nil => simp
  | cons a l ih =>
    have ha := h a (List.mem_cons_self a l)
    simp only [List.cons_append, List.takeWhile_cons, ha, if_true]
    rw [ih (fun c hc => h c (List.mem_cons_of_mem a hc))]

/-- Evaluation of the pattern tail on a quoted value followed by `">`:
the value group is the whole quote-free run. -/
theorem matchAfterAttr_eval (v : List Char) (hv : v ≠ [])
    (hvq : ∀ c ∈ v, isQuote c = false) :
    matchAfterAttr ('"' :: (v ++ ['"', '>'])) = some ('"', v, '"', [], []) := by
  have htw : (v ++ ['"', '>']).takeWhile (fun c => !(isQuote c)) = v := by
    rw [takeWhile_append_of_all v _ (fun c hc => by simp [hvq c hc])]
    have h2 : (['"', '>'] : List Char).takeWhile (fun c => !(isQuote c)) =
        [] := by decide
    rw [h2, List.append_nil]
  have hemp : v.isEmpty = false := by
    cases v with
    | nil => exact absurd rfl hv
    | cons a l => rfl
  unfold matchAfterAttr
  simp only [show isQuote '"' = true from by decide, if_true]
  rw [htw, List.drop_left]
  simp [hemp]

/-- When `href=` matches inside the quote-free region (or at its very end),
the rest of the pattern cannot complete: the next character is either another
value character (not a quote) or the closing quote immediately followed by
`>`. -/
theorem matchAfter_href_core (u : List Char)
    (hu : ∀ c ∈ u, isQuote c = false)
    (hp : (String.toList "href=").isPrefixOf (u ++ ['"', '>']) = true) :
    matchAfterAttr ((u ++ ['"', '>']).drop 5) = none := by
  rcases u with _ | ⟨a, _ | ⟨b, _ | ⟨c, _ | ⟨d, _ | ⟨e, u2⟩⟩⟩⟩⟩
  · simp [List.isPrefixOf] at hp
  · simp [List.isPrefixOf] at hp
  · simp [List.isPrefixOf] at hp
  · simp [List.isPrefixOf] at hp
  · simp [List.isPrefixOf] at hp
  · simp only [List.cons_append, List.drop_succ_cons, List.drop_zero]
    cases u2 with
    | nil => decide
    | cons x u3 =>
      have hx : isQuote x = false := hu x (by simp)
      unfold matchAfterAttr
      simp [hx]

/-- The `src=` analogue of `matchAfter_href_core`. -/
theorem matchAfter_src_core (u : List Char)
    (hu : ∀ c ∈ u, isQuote c = false)
    (hp : (String.toList "src=").isPrefixOf (u ++ ['"', '>']) = true) :
    matchAfterAttr ((u ++ ['"', '>']).drop 4) = none := by
  rcases u with _ | ⟨a, _ | ⟨b, _ | ⟨c, _ | ⟨d, u2⟩⟩⟩⟩
  · simp [List.isPrefixOf] at hp
  · simp [List.isPrefixOf] at hp
  · simp [List.isPrefixOf] at hp
  · simp [List.isPrefixOf] at hp
  · simp only [List.cons_append, List.drop_succ_cons, List.drop_zero]
    cases u2 with
    | nil => decide
    | cons x u3 =>
      have hx : isQuote x = false := hu x (by simp)
      unfold matchAfterAttr
      simp [hx]

/-- Descending through failing backtracking positions leaves `trySplit`
unchanged. -/
theorem trySplit_skip (attr body : List Char) (lo : Nat) :
    ∀ hi, lo ≤ hi →
      (∀ j, lo < j → j ≤ hi → stepCheck attr body j = none) →
      trySplit attr body hi = trySplit attr body lo := by
  intro hi
  induction hi with
  | zero => intro h _; rw [Nat.le_zero.mp h]
  | succ k ih =>
    intro hle hall
    rcases Nat.lt_or_ge lo (k + 1) with hlt | hge
    · have hstep : stepCheck attr body (k + 1) = none :=
        hall (k + 1) hlt (Nat.le_refl _)
      have h2 : trySplit attr body (k + 1) = trySplit attr body k := by
        show (match stepCheck attr body (k + 1) with
          | some (q1, v, q2, w, r) => some (k + 1, q1, v, q2, w, r)
          | none => trySplit attr body k) = trySplit attr body k
        rw [hstep]
      rw [h2]
      exact ih (Nat.lt_succ_iff.mp hlt)
        (fun j hj hj2 => hall j hj (Nat.le_succ_of_le hj2))
    · rw [Nat.le_antisymm hle hge]

/-- The regex body following the literal `<link` in a one-tag document whose
`href` value is `v`:  ` href="` ++ v ++ `">`. -/
def linkBody (v : List Char) : List Char :=
  ' ' :: 'h' :: 'r' :: 'e' :: 'f' :: '=' :: '"' :: (v ++ ['"', '>'])

/-- The regex body following the literal `<script` in a one-tag document whose
`src` value is `v`:  ` src="` ++ v ++ `">`. -/
def scriptBody (v : List Char) : List Char :=
  ' ' :: 's' :: 'r' :: 'c' :: '=' :: '"' :: (v ++ ['"', '>'])

/-- `href=` occurrences inside the quote-free region never complete a match. -/
theorem matchAfter_none_href_general (v : List Char)
    (hvq : ∀ c ∈ v, isQuote c = false) (i : Nat)
    (hp : (String.toList "href=").isPrefixOf ((v ++ ['"', '>']).drop i) =
      true) :
    matchAfterAttr (((v ++ ['"', '>']).drop i).drop 5) = none := by
  rcases le_or_lt i v.length with hle | hgt2
  · have hdec : (v ++ ['"', '>']).drop i = v.drop i ++ ['"', '>'] := by
      rw [List.drop_append_eq_append_drop, Nat.sub_eq_zero_of_le hle,
        List.drop_zero]
    rw [hdec] at hp ⊢
    exact matchAfter_href_core (v.drop i)
      (fun c hc => hvq c (List.mem_of_mem_drop hc)) hp
  · have hnl : v.drop i = [] := List.drop_eq_nil_of_le (Nat.le_of_lt hgt2)
    have hdec : (v ++ ['"', '>']).drop i =
        (['"', '>'] : List Char).drop (i - v.length) := by
      rw [List.drop_append_eq_append_drop, hnl, List.nil_append]
    rw [hdec] at hp
    rcases hk : i - v.length with _ | k
    · omega
    · rw [hk] at hp
      rcases k with _ | k2
      · simp [List.isPrefixOf] at hp
      · simp [List.drop_succ_cons, List.drop_nil, List.isPrefixOf] at hp

/-- `src=` version of `matchAfter_none_href_general`. -/
theorem matchAfter_none_src_general (v : List Char)
    (hvq : ∀ c ∈ v, isQuote c = false) (i : Nat)
    (hp : (String.toList "src=").isPrefixOf ((v ++ ['"', '>']).drop i) =
      true) :
    matchAfterAttr (((v ++ ['"', '>']).drop i).drop 4) = none := by
  rcases le_or_lt i v.length with hle | hgt2
  · have hdec : (v ++ ['"', '>']).drop i = v.drop i ++ ['"', '>'] := by
      rw [List.drop_append_eq_append_drop, Nat.sub_eq_zero_of_le hle,
        List.drop_zero]
    rw [hdec] at hp ⊢
    exact matchAfter_src_core (v.drop i)
      (fun c hc => hvq c (List.mem_of_mem_drop hc)) hp
  · have hnl : v.drop i = [] := List.drop_eq_nil_of_le (Nat.le_of_lt hgt2)
    have hdec : (v ++ ['"', '>']).drop i =
        (['"', '>'] : List Char).drop (i - v.length) := by
      rw [List.drop_append_eq_append_drop, hnl, List.nil_append]
    rw [hdec] at hp
    rcases hk : i - v.length with _ | k
    · omega
    · rw [hk] at hp
      rcases k with _ | k2
      · simp [List.isPrefixOf] at hp
      · simp [List.drop_succ_cons, List.drop_nil, List.isPrefixOf] at hp

/-- The only successful backtracking split of the one-`link`-tag body is at
position 1 (right after the single space). -/
theorem stepCheck_link_one (v : List Char) (hv : v ≠ [])
    (hvq : ∀ c ∈ v, isQuote c = false) :
    stepCheck (String.toList "href=") (linkBody v) 1 =
      some ('"', v, '"', [], []) := by
  have h1 : stepCheck (String.toList "href=") (linkBody v) 1 =
      matchAfterAttr ('"' :: (v ++ ['"', '>'])) := rfl
  rw [h1, matchAfterAttr_eval v hv hvq]

/-- Every backtracking split of the one-`link`-tag body after position 1
fails. -/
theorem stepCheck_link_fail (v : List Char)
    (hvq : ∀ c ∈ v, isQuote c = false) :
    ∀ j, 2 ≤ j →
      stepCheck (String.toList "href=") (linkBody v) j = none := by
  intro j hj
  rcases j with _ | _ | _ | _ | _ | _ | _ | i
  · omega
  · omega
  · rfl
  · rfl
  · rfl
  · rfl
  · rfl
  · have hdrop : (linkBody v).drop (i + 7) = (v ++ ['"', '>']).drop i := by
      unfold linkBody
      simp only [List.drop_succ_cons]
    unfold stepCheck
    cases hpre : (String.toList "href=").isPrefixOf
        ((linkBody v).drop (i + 7)) with
    | false => simp [hpre]
    | true =>
      have hm := matchAfter_none_href_general v hvq i (hdrop ▸ hpre)
      cases hA : ((linkBody v).take (i + 7)).all
          (fun c => !(c == '>')) with
      | false => simp [hA]
      | true =>
        simp only [hpre, hA, Bool.and_self, if_true]
        rw [hdrop]
        exact hm

/-- The only successful backtracking split of the one-`script`-tag body is at
position 1. -/
theorem stepCheck_script_one (v : List Char) (hv : v ≠ [])
    (hvq : ∀ c ∈ v, isQuote c = false) :
    stepCheck (String.toList "src=") (scriptBody v) 1 =
      some ('"', v, '"', [], []) := by
  have h1 : stepCheck (String.toList "src=") (scriptBody v) 1 =
      matchAfterAttr ('"' :: (v ++ ['"', '>'])) := rfl
  rw [h1, matchAfterAttr_eval v hv hvq]

/-- Every backtracking split of the one-`script`-tag body after position 1
fails. -/
theorem stepCheck_script_fail (v : List Char)
    (hvq : ∀ c ∈ v, isQuote c = false) :
    ∀ j, 2 ≤ j →
      stepCheck (String.toList "src=") (scriptBody v) j = none := by
  intro j hj
  rcases j with _ | _ | _ | _ | _ | _ | i
  · omega
  · omega
  · rfl
  · rfl
  · rfl
  · rfl
  · have hdrop : (scriptBody v).drop (i + 6) = (v ++ ['"', '>']).drop i := by
      unfold scriptBody
      simp only [List.drop_succ_cons]
    unfold stepCheck
    cases hpre : (String.toList "src=").isPrefixOf
        ((scriptBody v).drop (i + 6)) with
    | false => simp [hpre]
    | true =>
      have hm := matchAfter_none_src_general v hvq i (hdrop ▸ hpre)
      cases hA : ((scriptBody v).take (i + 6)).all
          (fun c => !(c == '>')) with
      | false => simp [hA]
      | true =>
        simp only [hpre, hA, Bool.and_self, if_true]
        rw [hdrop]
        exact hm

/-- `rsubF` on the empty input. -/
theorem rsubF_nil (tag attr : List Char)
    (repl : List Char → List Char → List Char → List Char) (n : Nat) :
    rsubF tag attr repl n [] = [] := by cases n <;> rfl

/-- One successful scan step of `rsubF`: when the tag matches at the head and
the backtracking search succeeds, the replacement is emitted and scanning
resumes after the match. -/
theorem rsubF_found (tag attr : List Char)
    (repl : List Char → List Char → List Char → List Char) (fuel : Nat)
    (hf : fuel ≠ 0) (c : Char) (rest : List Char) (k : Nat) (q1 : Char)
    (v2 : List Char) (q2 : Char) (w rest5 : List Char)
    (htag : tag.isPrefixOf (c :: rest) = true)
    (hts : trySplit attr ((c :: rest).drop tag.length)
      ((c :: rest).drop tag.length).length = some (k, q1, v2, q2, w, rest5)) :
    rsubF tag attr repl fuel (c :: rest) =
      repl (tag ++ ((c :: rest).drop tag.length).take k ++ attr ++ [q1]) v2
        ([q2] ++ w ++ ['>']) ++ rsubF tag attr repl (fuel - 1) rest5 := by
  obtain ⟨f2, rfl⟩ : ∃ f2, fuel = f2 + 1 := ⟨fuel - 1, by omega⟩
  simp only [rsubF, htag, if_true]
  rw [hts]
  simp

/-- The backtracking search over the one-`link`-tag body finds the split at
position 1 with the whole value as group 2. -/
theorem trySplit_link (v : List Char) (hv : v ≠ [])
    (hvq : ∀ c ∈ v, isQuote c = false) :
    trySplit (String.toList "href=") (linkBody v) (linkBody v).length =
      some (1, '"', v, '"', [], []) := by
  have h1 : 1 ≤ (linkBody v).length := by
    unfold linkBody
    simp [List.length_cons]
  have hskip := trySplit_skip (String.toList "href=") (linkBody v) 1
    (linkBody v).length h1
    (fun j hj _ => stepCheck_link_fail v hvq j hj)
  rw [hskip]
  show (match stepCheck (String.toList "href=") (linkBody v) 1 with
    | some (q1, v2, q2, w, r) => some (1, q1, v2, q2, w, r)
    | none => trySplit (String.toList "href=") (linkBody v) 0) =
      some (1, '"', v, '"', [], [])
  rw [stepCheck_link_one v hv hvq]

/-- The backtracking search over the one-`script`-tag body finds the split at
position 1 with the whole value as group 2. -/
theorem trySplit_script (v : List Char) (hv : v ≠ [])
    (hvq : ∀ c ∈ v, isQuote c = false) :
    trySplit (String.toList "src=") (scriptBody v) (scriptBody v).length =
      some (1, '"', v, '"', [], []) := by
  have h1 : 1 ≤ (scriptBody v).length := by
    unfold scriptBody
    simp [List.length_cons]
  have hskip := trySplit_skip (String.toList "src=") (scriptBody v) 1
    (scriptBody v).length h1
    (fun j hj _ => stepCheck_script_fail v hvq j hj)
  rw [hskip]
  show (match stepCheck (String.toList "src=") (scriptBody v) 1 with
    | some (q1, v2, q2, w, r) => some (1, q1, v2, q2, w, r)
    | none => trySplit (String.toList "src=") (scriptBody v) 0) =
      some (1, '"', v, '"', [], [])
  rw [stepCheck_script_one v hv hvq]

/-- The `<link ... href=` pass on a one-`link`-tag document substitutes the
value according to `rewrittenValue`. -/
theorem rsub_link_doc (token v : List Char) (hv : v ≠ [])
    (hvq : ∀ c ∈ v, isQuote c = false) :
    rsub (String.toList "<link") (String.toList "href=") (rewriteRepl token)
      (String.toList "<link href=\"" ++ (v ++ ['"', '>'])) =
      String.toList "<link href=\"" ++
        (rewrittenValue token v ++ ['"', '>']) := by
  unfold rsub
  have hlen : (String.toList "<link href=\"" ++ (v ++ ['"', '>'])).length ≠
      0 := by
    simp [List.length_append]
  have hfound := rsubF_found (String.toList "<link") (String.toList "href=")
    (rewriteRepl token)
    ((String.toList "<link href=\"" ++ (v ++ ['"', '>'])).length) hlen
    '<' ('l' :: 'i' :: 'n' :: 'k' :: linkBody v) 1 '"' v '"' [] []
    (by rfl) (trySplit_link v hv hvq)
  rw [show (String.toList "<link href=\"" ++ (v ++ ['"', '>'])) =
    '<' :: 'l' :: 'i' :: 'n' :: 'k' :: linkBody v from rfl] at hfound ⊢
  rw [hfound, rsubF_nil]
  show rewriteRepl token (String.toList "<link href=\"") v
      (['"'] ++ [] ++ ['>']) ++ [] = _
  unfold rewriteRepl
  simp [List.append_assoc]

/-- The `<script ... src=` pass on a one-`script`-tag document substitutes the
value according to `rewrittenValue`. -/
theorem rsub_script_doc (token v : List Char) (hv : v ≠ [])
    (hvq : ∀ c ∈ v, isQuote c = false) :
    rsub (String.toList "<script") (String.toList "src=") (rewriteRepl token)
      (String.toList "<script src=\"" ++ (v ++ ['"', '>'])) =
      String.toList "<script src=\"" ++
        (rewrittenValue token v ++ ['"', '>']) := by
  unfold rsub
  have hlen : (String.toList "<script src=\"" ++ (v ++ ['"', '>'])).length ≠
      0 := by
    simp [List.length_append]
  have hfound := rsubF_found (String.toList "<script") (String.toList "src=")
    (rewriteRepl token)
    ((String.toList "<script src=\"" ++ (v ++ ['"', '>'])).length) hlen
    '<' ('s' :: 'c' :: 'r' :: 'i' :: 'p' :: 't' :: scriptBody v) 1 '"' v '"'
    [] [] (by rfl) (trySplit_script v hv hvq)
  rw [show (String.toList "<script src=\"" ++ (v ++ ['"', '>'])) =
    '<' :: 's' :: 'c' :: 'r' :: 'i' :: 'p' :: 't' :: scriptBody v from
    rfl] at hfound ⊢
  rw [hfound, rsubF_nil]
  show rewriteRepl token (String.toList "<script src=\"") v
      (['"'] ++ [] ++ ['>']) ++ [] = _
  unfold rewriteRepl
  simp [List.append_assoc]

/-- When the tag occurs nowhere, the scan is the identity. -/
theorem rsubF_id_of_no_tag (tag attr : List Char)
    (repl : List Char → List Char → List Char → List Char) :
    ∀ (fuel : Nat) (s : List Char),
      (∀ n, tag.isPrefixOf (s.drop n) = false) →
      rsubF tag attr repl fuel s = s := by
  intro fuel
  induction fuel with
  | zero => intro s _; rfl
  | succ k ih =>
    intro s h
    cases s with
    | nil => rfl
    | cons c rest =>
      have hne : ¬ (tag.isPrefixOf (c :: rest) = true) := by
        have h1 := h 0
        simp only [List.drop_zero] at h1
        simp [h1]
      simp only [rsubF]
      rw [if_neg hne]
      rw [ih rest (fun n => by
        have h2 := h (n + 1)
        simpa [List.drop_succ_cons] using h2)]

/-- A predicate false on both parts is false on the concatenation. -/
theorem all_pred_append {α : Type} {p : α → Bool} (xs ys : List α)
    (hx : ∀ x ∈ xs, p x = false) (hy : ∀ x ∈ ys, p x = false) :
    ∀ x ∈ xs ++ ys, p x = false := by
  intro x hx2
  rcases List.mem_append.mp hx2 with h | h
  · exact hx x h
  · exact hy x h

/-- A tag beginning with `<` matches nowhere in a document whose only `<` is
at the head, followed by a different character. -/
theorem no_tag_of_head (t1 : Char) (trest : List Char) (c : Char)
    (rest : List Char) (hc : (t1 == c) = false)
    (hall : ∀ x ∈ c :: rest, (x == '<') = false) :
    ∀ n, ('<' :: t1 :: trest).isPrefixOf (('<' :: c :: rest).drop n) =
      false := by
  intro n
  cases n with
  | zero => simp [List.isPrefixOf, hc]
  | succ m =>
    simp only [List.drop_succ_cons]
    cases hd : (c :: rest).drop m with
    | nil => simp [List.isPrefixOf]
    | cons y ys =>
      have hy : y ∈ c :: rest :=
        List.mem_of_mem_drop (hd ▸ List.mem_cons_self y ys)
      have hy2 : ('<' == y) = false := by
        have h3 := hall y hy
        rw [beq_eq_false_iff_ne] at h3 ⊢
        exact fun he => h3 he.symm
      simp [List.isPrefixOf, hy2]

/-- The rewritten value contains no `<` when neither the token nor the
original value does. -/
theorem rewrittenValue_no_lt (token v : List Char)
    (ht : ∀ c ∈ token, (c == '<') = false)
    (hv : ∀ c ∈ v, (c == '<') = false) :
    ∀ c ∈ rewrittenValue token v, (c == '<') = false := by
  unfold rewrittenValue
  split
  · exact hv
  · apply all_pred_append
    · apply all_pred_append
      · apply all_pred_append
        · decide
        · exact ht
      · decide
    · intro c hc
      exact hv c ((List.dropWhile_sublist _).subset hc)

/-- Claim C4 (corrected): on a one-tag entry page, the rewrite keeps a value
unmodified exactly when it starts with the literal `http`, with `//`, or with
`/preview/` (the source's `startswith` tuple), and prefixes every other value
with `/preview/<token>/` after stripping leading slashes — this is
`rewrittenValue`.  The check is not a general scheme test: non-`http` schemes
are rewritten (see the counterexample) and any value beginning with the
letters `http` is kept. -/
theorem C4_rewrite_prefix_checks (token v : List Char) (hv : v ≠ [])
    (hq : ∀ c ∈ v, isQuote c = false)
    (hlt : ∀ c ∈ v, (c == '<') = false)
    (htlt : ∀ c ∈ token, (c == '<') = false) :
    rewriteHtmlL token (String.toList "<link href=\"" ++ (v ++ ['"', '>'])) =
      String.toList "<link href=\"" ++
        (rewrittenValue token v ++ ['"', '>']) ∧
    rewriteHtmlL token
        (String.toList "<script src=\"" ++ (v ++ ['"', '>'])) =
      String.toList "<script src=\"" ++
        (rewrittenValue token v ++ ['"', '>']) := by
  constructor
  · unfold rewriteHtmlL
    rw [rsub_link_doc token v hv hq]
    unfold rsub
    refine rsubF_id_of_no_tag _ _ _ _ _ ?_
    intro n
    have hall : ∀ x ∈ ('l' :: (String.toList "ink href=\"" ++
        (rewrittenValue token v ++ ['"', '>']))), (x == '<') = false := by
      intro x hx
      have hx2 : x ∈ (String.toList "link href=\"") ++
          (rewrittenValue token v ++ ['"', '>']) := hx
      exact all_pred_append _ _ (by decide)
        (all_pred_append _ _ (rewrittenValue_no_lt token v htlt hlt)
          (by decide)) x hx2
    exact no_tag_of_head 's' (String.toList "cript") 'l'
      (String.toList "ink href=\"" ++ (rewrittenValue token v ++ ['"', '>']))
      (by decide) hall n
  · unfold rewriteHtmlL
    have hid : rsub (String.toList "<link") (String.toList "href=")
        (rewriteRepl token)
        (String.toList "<script src=\"" ++ (v ++ ['"', '>'])) =
        String.toList "<script src=\"" ++ (v ++ ['"', '>']) := by
      unfold rsub
      refine rsubF_id_of_no_tag _ _ _ _ _ ?_
      intro n
      have hall : ∀ x ∈ ('s' :: (String.toList "cript src=\"" ++
          (v ++ ['"', '>']))), (x == '<') = false := by
        intro x hx
        have hx2 : x ∈ (String.toList "script src=\"") ++
            (v ++ ['"', '>']) := hx
        exact all_pred_append _ _ (by decide)
          (all_pred_append _ _ hlt (by decide)) x hx2
      exact no_tag_of_head 'l' (String.toList "ink") 's'
        (String.toList "cript src=\"" ++ (v ++ ['"', '>'])) (by decide)
        hall n
    rw [hid]
    exact rsub_script_doc token v hv hq

/-- Claim C4 (corrected, counterexample): an entry page whose stylesheet link
uses the `ftp` scheme — absolute by any scheme test — is rewritten by the
served response, because the code only exempts values starting with the
literal `http`. -/
theorem C4_ftp_value_rewritten :
    (serve_preview_files
        ⟨[(["tmp", "previews", "t", "index.html"],
          "<link href=\"ftp://cdn.example.com/x.css\">")], []⟩ "T"
        ["tmp", "previews", "t"] "").1 =
      ServeResult.html ["tmp", "previews", "t", "index.html"]
        "<link href=\"/preview/T/ftp://cdn.example.com/x.css\">" ∧
    ("<link href=\"/preview/T/ftp://cdn.example.com/x.css\">" : String) ≠
      "<link href=\"ftp://cdn.example.com/x.css\">" := by decide

theorem C4_rewrite_prefix_checks_witness :
    rewriteHtmlL (String.toList "T")
        (String.toList "<link href=\"" ++
          (String.toList "styles/main.css" ++ ['"', '>'])) =
      String.toList "<link href=\"" ++
        (rewrittenValue (String.toList "T")
          (String.toList "styles/main.css") ++ ['"', '>']) :=
  (C4_rewrite_prefix_checks (String.toList "T")
    (String.toList "styles/main.css") (by decide) (by decide) (by decide)
    (by decide)).1
